import Mathlib

/-!
Shallow embedding of the incremental header encoder of the
`mail-common` crate (src/encoder/mod.rs, src/encoder/body.rs,
src/mail_type.rs, src/error.rs), together with theorems settling the
claims about it.

A Rust `String` buffer is modelled as a `List Nat` of its UTF-8 bytes;
a `char` is modelled as its Unicode code point (a `Nat`), pushed onto
the buffer as its UTF-8 byte sequence.  Fallible operations return an
explicit result value; the unguarded byte index inside
`break_line_on_fws` is modelled through `List.get?`, with `none`
surfacing as a `panic` outcome.
-/

set_option maxRecDepth 40000

namespace MailSpec

/-- `MailType` from src/mail_type.rs: tri-state enum governing which
characters/encodings are legal. -/
inductive MailType
  | Ascii
  | Mime8BitEnabled
  | Internationalized
deriving DecidableEq

/-- `MailType::is_internationalized` (src/mail_type.rs lines 9-12):
true exactly for `Internationalized`. -/
def MailType.is_internationalized : MailType → Bool
  | .Internationalized => true
  | _ => false

/-- Constant `US_ASCII` from src/error.rs. -/
def US_ASCII : String := "us-ascii"

/-- Constant `UTF_8` from src/error.rs. -/
def UTF_8 : String := "utf-8"

/-- `EncodingErrorKind` from src/error.rs.  (`Malformed` carries no
payload in src/error.rs; the `malformkind` tag used at the call sites
in src/encoder/mod.rs is dropped here.) -/
inductive EncodingErrorKind
  | InvalidTextEncoding (expected_encoding : String) (got_encoding : String)
  | HardLineLengthLimitBreached
  | NotEncodable (encoding : String)
  | Malformed
  | AccessingMailBodyFailed
  | Other (kind : String)
deriving DecidableEq

/-- `EncodingError` from src/error.rs, restricted to the parts the
encoder claims observe: the kind and the optional mail type attached by
`From<(EncodingErrorKind, MailType)>` (the context string, place and
backtrace are diagnostics only). -/
structure EncodingError where
  kind : EncodingErrorKind
  mail_type : Option MailType
deriving DecidableEq

/-- The UTF-8 byte sequence of a code point: the bytes Rust's
`String::push` appends to the backing buffer. -/
def utf8Encode (c : Nat) : List Nat :=
  if c < 0x80 then [c]
  else if c < 0x800 then [0xC0 + c / 0x40, 0x80 + c % 0x40]
  else if c < 0x10000 then
    [0xE0 + c / 0x1000, 0x80 + c / 0x40 % 0x40, 0x80 + c % 0x40]
  else
    [0xF0 + c / 0x40000, 0x80 + c / 0x1000 % 0x40, 0x80 + c / 0x40 % 0x40, 0x80 + c % 0x40]

/-- The UTF-8 bytes of a whole sequence of code points (Rust
`str::as_bytes`). -/
def utf8Str (s : List Nat) : List Nat := (s.map utf8Encode).flatten

/-- UTF-8 byte length of a sequence of code points. -/
def byteLen (s : List Nat) : Nat := (utf8Str s).length

/-- `true` for characters other than space and horizontal tab: the
characters counting as line content in src/encoder/mod.rs line 712. -/
def notWs (c : Nat) : Bool := decide (c ≠ 32 ∧ c ≠ 9)

/-- `LINE_LEN_SOFT_LIMIT` (src/encoder/mod.rs line 27). -/
def LINE_LEN_SOFT_LIMIT : Nat := 78

/-- `LINE_LEN_HARD_LIMIT` (src/encoder/mod.rs line 29). -/
def LINE_LEN_HARD_LIMIT : Nat := 998

/-- The state of `EncodeHandle` (src/encoder/mod.rs lines 232-251):
the borrowed buffer plus the cursor/tracking fields (the test-only
trace fields are omitted). -/
structure EncodeHandle where
  buffer : List Nat
  mail_type : MailType
  line_start_idx : Nat
  last_fws_idx : Nat
  skipped_cr : Bool
  content_since_fws : Bool
  content_before_fws : Bool
  header_start_idx : Nat
deriving DecidableEq

/-- The possible outcomes of one encoder write: success, a typed
error (the handle keeps the state mutated so far), or a Rust panic. -/
inductive WResult
  | ok (h : EncodeHandle)
  | err (h : EncodeHandle) (e : EncodingError)
  | panic
deriving DecidableEq

namespace EncodeHandle

/-- `EncodeHandle::new` (src/encoder/mod.rs lines 268-284): all index
fields start at the current end of the buffer. -/
def new (mail_type : MailType) (buffer : List Nat) : EncodeHandle :=
  { buffer := buffer
    mail_type := mail_type
    line_start_idx := buffer.length
    last_fws_idx := buffer.length
    skipped_cr := false
    content_since_fws := false
    content_before_fws := false
    header_start_idx := buffer.length }

/-- `EncodeHandle::reinit` (src/encoder/mod.rs lines 308-318). -/
def reinit (h : EncodeHandle) : EncodeHandle :=
  { h with
    line_start_idx := h.buffer.length
    last_fws_idx := h.buffer.length
    skipped_cr := false
    content_since_fws := false
    content_before_fws := false
    header_start_idx := h.buffer.length }

/-- `EncodeHandle::has_unfinished_parts` (src/encoder/mod.rs 321-323). -/
def has_unfinished_parts (h : EncodeHandle) : Bool :=
  decide (h.buffer.length ≠ h.header_start_idx)

/-- `EncodeHandle::line_has_content` (src/encoder/mod.rs 331-333). -/
def line_has_content (h : EncodeHandle) : Bool :=
  h.content_before_fws || h.content_since_fws

/-- `EncodeHandle::current_line_byte_length` (src/encoder/mod.rs 336-338). -/
def current_line_byte_length (h : EncodeHandle) : Nat :=
  h.buffer.length - h.line_start_idx

/-- `EncodeHandle::mark_fws_pos` (src/encoder/mod.rs 345-351). -/
def mark_fws_pos (h : EncodeHandle) : EncodeHandle :=
  { h with
    content_before_fws := h.content_before_fws || h.content_since_fws
    content_since_fws := false
    last_fws_idx := h.buffer.length }

/-- `EncodeHandle::start_new_line` (src/encoder/mod.rs 606-631): if the
line has content append CRLF, else truncate the blank line away; then
reset the per-line tracking. -/
def start_new_line (h : EncodeHandle) : EncodeHandle :=
  let h1 := if h.line_has_content then { h with buffer := h.buffer ++ [13, 10] }
            else { h with buffer := h.buffer.take h.line_start_idx }
  { h1 with
    line_start_idx := h1.buffer.length
    content_since_fws := false
    content_before_fws := false
    last_fws_idx := h1.buffer.length }

/-- `EncodeHandle::break_line_on_fws` (src/encoder/mod.rs 633-652).
The source indexes `buffer.as_bytes()[last_fws_idx]` without a bounds
check; the out-of-bounds case is modelled as `none` (a panic).
`insert_str(idx, newline)` becomes take/insert/drop at the byte index. -/
def break_line_on_fws (h : EncodeHandle) : Option (Bool × EncodeHandle) :=
  if h.content_before_fws ∧ h.line_start_idx < h.last_fws_idx then
    match h.buffer.get? h.last_fws_idx with
    | none => none
    | some b =>
      let newline := if b = 32 ∨ b = 9 then [13, 10] else [13, 10, 32]
      some (true, { h with
        buffer := h.buffer.take h.last_fws_idx ++ newline ++ h.buffer.drop h.last_fws_idx
        line_start_idx := h.last_fws_idx + 2
        content_before_fws := false })
  else some (false, h)

/-- The tail of `internal_write_char` after the length checks
(src/encoder/mod.rs 692-717): push the char's UTF-8 bytes and record
non-whitespace content. -/
def pushContent (h : EncodeHandle) (ch : Nat) : EncodeHandle :=
  let h1 := { h with buffer := h.buffer ++ utf8Encode ch }
  if ch ≠ 32 ∧ ch ≠ 9 then { h1 with content_since_fws := true } else h1

/-- The part of `internal_write_char` past the CRLF state machine
(src/encoder/mod.rs 681-717): the soft/hard line length handling and
the byte push. -/
def internal_write_plain (h : EncodeHandle) (ch : Nat) : WResult :=
  if LINE_LEN_SOFT_LIMIT ≤ h.current_line_byte_length then
    match h.break_line_on_fws with
    | none => WResult.panic
    | some (broke, h2) =>
      if broke = false ∧ h2.buffer.length = LINE_LEN_HARD_LIMIT then
        WResult.err h2 ⟨.HardLineLengthLimitBreached, some h2.mail_type⟩
      else WResult.ok (pushContent h2 ch)
  else WResult.ok (pushContent h ch)

/-- `EncodeHandle::internal_write_char` (src/encoder/mod.rs 654-718):
the CRLF state machine, then `internal_write_plain` for every other
character (with the pending-CR flag cleared, as in the source). -/
def internal_write_char (h : EncodeHandle) (ch : Nat) : WResult :=
  if ch = 10 then
    if h.skipped_cr then WResult.ok { h.start_new_line with skipped_cr := false }
    else WResult.err h ⟨.Malformed, some h.mail_type⟩
  else if h.skipped_cr then WResult.err h ⟨.Malformed, some h.mail_type⟩
  else if ch = 13 then WResult.ok { h with skipped_cr := true }
  else internal_write_plain { h with skipped_cr := false } ch

/-- `EncodeHandle::internal_write_str` (src/encoder/mod.rs 595-600):
write the chars one by one, stopping at the first failure. -/
def internal_write_str : EncodeHandle → List Nat → WResult
  | h, [] => .ok h
  | h, c :: rest =>
    match internal_write_char h c with
    | .ok h2 => internal_write_str h2 rest
    | .err h2 e => .err h2 e
    | .panic => .panic

/-- `EncodeHandle::write_char` (src/encoder/mod.rs 362-366). -/
def write_char (h : EncodeHandle) (ch : Nat) : WResult :=
  internal_write_char h ch

/-- `EncodeHandle::write_str` (src/encoder/mod.rs 383-387). -/
def write_str (h : EncodeHandle) (s : List Nat) : WResult :=
  internal_write_str h s

/-- `EncodeHandle::write_str_unchecked` (src/encoder/mod.rs 517-521). -/
def write_str_unchecked (h : EncodeHandle) (s : List Nat) : WResult :=
  internal_write_str h s

/-- `EncodeHandle::write_utf8` (src/encoder/mod.rs 417-433): gate on
`mail_type.is_internationalized`, else fail with
`InvalidTextEncoding { expected: us-ascii, got: utf-8 }`. -/
def write_utf8 (h : EncodeHandle) (s : List Nat) : WResult :=
  if h.mail_type.is_internationalized then internal_write_str h s
  else WResult.err h ⟨.InvalidTextEncoding US_ASCII UTF_8, some h.mail_type⟩

/-- `EncodeHandle::finish_header` (src/encoder/mod.rs 540-546). -/
def finish_header (h : EncodeHandle) : EncodeHandle :=
  h.start_new_line.reinit

/-- `EncodeHandle::undo_header` (src/encoder/mod.rs 557-562). -/
def undo_header (h : EncodeHandle) : EncodeHandle :=
  ({ h with buffer := h.buffer.take h.header_start_idx }).reinit

end EncodeHandle

/-- Forget the error of a write (`let _ = ...` in the source): keep the
state reached, propagate only a panic. -/
def wToOpt : WResult → Option EncodeHandle
  | .ok h => some h
  | .err h _ => some h
  | .panic => none

/-- `EncodeHandle::write_fws` (src/encoder/mod.rs 581-584): mark a fold
point, then write a single space discarding the result. -/
def EncodeHandle.write_fws (h : EncodeHandle) : Option EncodeHandle :=
  wToOpt (h.mark_fws_pos.write_char 32)

/-- One public write operation on a handle, for reasoning over
arbitrary sequences of writes. -/
inductive WriteOp
  | wchar (c : Nat)
  | wstr (s : List Nat)
  | wutf8 (s : List Nat)
  | wunchecked (s : List Nat)
  | markfws
  | wfws

/-- Apply one write operation; a failed write keeps the partially
mutated state (the caller may still roll back), a panic aborts. -/
def applyWriteOp (h : EncodeHandle) : WriteOp → Option EncodeHandle
  | .wchar c => wToOpt (h.write_char c)
  | .wstr s => wToOpt (h.write_str s)
  | .wutf8 s => wToOpt (h.write_utf8 s)
  | .wunchecked s => wToOpt (h.write_str_unchecked s)
  | .markfws => some h.mark_fws_pos
  | .wfws => h.write_fws

/-- Run a sequence of write operations. -/
def runWriteOps : EncodeHandle → List WriteOp → Option EncodeHandle
  | h, [] => some h
  | h, op :: rest =>
    match applyWriteOp h op with
    | some h2 => runWriteOps h2 rest
    | none => none

/-- A body payload behind the `BodyBuffer` capability
(src/encoder/body.rs): scoped access either exposes the raw bytes to
the callback or fails (e.g. an invalidated shared resource). -/
inductive BodyRep
  | avail (bytes : List Nat)
  | failed (e : EncodingError)
deriving DecidableEq

/-- `BodyBuffer::with_slice` (src/encoder/body.rs lines 33-34) over the
shallow body model: run the callback on the bytes, or surface the
body-access failure. -/
def with_slice (b : BodyRep) (f : List Nat → Except EncodingError α) :
    Except EncodingError α :=
  match b with
  | .avail bytes => f bytes
  | .failed e => .error e

/-- `Section` (src/encoder/body.rs lines 51-55). -/
inductive Section
  | String (s : List Nat)
  | BodyPayload (b : BodyRep)
deriving DecidableEq

/-- `slice.ends_with(b"\r\n")` from src/encoder/mod.rs line 152. -/
def ends_with_crlf (l : List Nat) : Bool := [13, 10].isSuffixOf l

/-- `Encoder` (src/encoder/mod.rs lines 37-42), trace omitted. -/
structure Encoder where
  mail_type : MailType
  sections : List Section

/-- The loop body of `Encoder::to_vec` (src/encoder/mod.rs 144-161)
with the output vector as explicit accumulator: extend with a text
section's bytes, or with a body's bytes via `with_slice`, appending
CRLF when the body bytes do not already end in CRLF. -/
def toVecAux (out : List Nat) : List Section → Except EncodingError (List Nat)
  | [] => .ok out
  | Section.String s :: rest => toVecAux (out ++ s) rest
  | Section.BodyPayload b :: rest =>
    match with_slice b (fun slice =>
        .ok (out ++ slice ++ (if ends_with_crlf slice then [] else [13, 10]))) with
    | .ok out2 => toVecAux out2 rest
    | .error e => .error e

/-- `Encoder::to_vec` (src/encoder/mod.rs 144-161). -/
def Encoder.to_vec (enc : Encoder) : Except EncodingError (List Nat) :=
  toVecAux [] enc.sections

/-- Spec-side rendering of one section, following the spec's words for
`to_vec`: a text section contributes its raw bytes unmodified; a body
section contributes the bytes obtained via `with_slice`, with CRLF
appended exactly when those bytes do not already end in CRLF. -/
def sectionBytesSpec : Section → Except EncodingError (List Nat)
  | Section.String s => .ok s
  | Section.BodyPayload b =>
    with_slice b (fun slice =>
      .ok (slice ++ (if ends_with_crlf slice then [] else [13, 10])))

/-! ### Basic lemmas about the byte-level model -/

theorem utf8Encode_length_pos (c : Nat) : 0 < (utf8Encode c).length := by
  unfold utf8Encode
  split_ifs <;> simp

theorem utf8Encode_ascii {c : Nat} (hc : c < 128) : utf8Encode c = [c] := by
  unfold utf8Encode
  rw [if_pos hc]

theorem utf8Str_nil : utf8Str [] = [] := rfl

theorem utf8Str_cons (c : Nat) (s : List Nat) :
    utf8Str (c :: s) = utf8Encode c ++ utf8Str s := by
  simp [utf8Str]

theorem byteLen_cons (c : Nat) (s : List Nat) :
    byteLen (c :: s) = (utf8Encode c).length + byteLen s := by
  simp [byteLen, utf8Str_cons]

theorem utf8Str_ascii {s : List Nat} (hs : ∀ c ∈ s, c < 128) : utf8Str s = s := by
  induction s with
  | nil => rfl
  | cons c rest ih =>
    rw [utf8Str_cons, utf8Encode_ascii (hs c (List.mem_cons_self c rest)),
      ih (fun d hd => hs d (List.mem_cons_of_mem c hd))]
    rfl

theorem pushContent_eq (h : EncodeHandle) (ch : Nat) :
    EncodeHandle.pushContent h ch =
      { h with buffer := h.buffer ++ utf8Encode ch
               content_since_fws := h.content_since_fws || notWs ch } := by
  unfold EncodeHandle.pushContent notWs
  split_ifs with hws
  · simp only [decide_eq_true hws, Bool.or_true]
  · simp only [decide_eq_false hws, Bool.or_false]

/-! ### A run of ordinary characters with no usable fold point -/

theorem break_none_of_no_content {h : EncodeHandle}
    (hcbf : h.content_before_fws = false) :
    EncodeHandle.break_line_on_fws h = some (false, h) := by
  unfold EncodeHandle.break_line_on_fws
  rw [if_neg]
  intro hand
  rw [hcbf] at hand
  exact absurd hand.1 (by simp)

theorem write_char_plain (h : EncodeHandle) (c : Nat)
    (hc10 : c ≠ 10) (hc13 : c ≠ 13)
    (hcr : h.skipped_cr = false) (hcbf : h.content_before_fws = false)
    (hlen : h.buffer.length ≠ LINE_LEN_HARD_LIMIT) :
    EncodeHandle.internal_write_char h c = WResult.ok (EncodeHandle.pushContent h c) := by
  have heta : ({ h with skipped_cr := false } : EncodeHandle) = h := by rw [← hcr]
  unfold EncodeHandle.internal_write_char
  rw [if_neg hc10, hcr]
  simp only [Bool.false_eq_true, if_false]
  rw [if_neg hc13, heta]
  unfold EncodeHandle.internal_write_plain
  rw [break_none_of_no_content hcbf]
  by_cases hsoft : LINE_LEN_SOFT_LIMIT ≤ h.current_line_byte_length
  · rw [if_pos hsoft]
    dsimp only
    rw [if_neg]
    intro hand
    exact hlen hand.2
  · rw [if_neg hsoft]

theorem write_char_hard (h : EncodeHandle) (c : Nat)
    (hc10 : c ≠ 10) (hc13 : c ≠ 13)
    (hcr : h.skipped_cr = false) (hcbf : h.content_before_fws = false)
    (hlen : h.buffer.length = LINE_LEN_HARD_LIMIT)
    (hline : LINE_LEN_SOFT_LIMIT ≤ h.current_line_byte_length) :
    EncodeHandle.internal_write_char h c =
      WResult.err h ⟨.HardLineLengthLimitBreached, some h.mail_type⟩ := by
  have heta : ({ h with skipped_cr := false } : EncodeHandle) = h := by rw [← hcr]
  unfold EncodeHandle.internal_write_char
  rw [if_neg hc10, hcr]
  simp only [Bool.false_eq_true, if_false]
  rw [if_neg hc13, heta]
  unfold EncodeHandle.internal_write_plain
  rw [break_none_of_no_content hcbf, if_pos hline]
  dsimp only
  rw [if_pos ⟨rfl, hlen⟩]

theorem write_str_plain (s : List Nat) : ∀ (h : EncodeHandle),
    (∀ c ∈ s, c ≠ 10 ∧ c ≠ 13) → h.skipped_cr = false →
    h.content_before_fws = false →
    h.buffer.length + byteLen s ≤ LINE_LEN_HARD_LIMIT →
    EncodeHandle.internal_write_str h s =
      WResult.ok { h with buffer := h.buffer ++ utf8Str s
                          content_since_fws := h.content_since_fws || s.any notWs } := by
  induction s with
  | nil =>
    intro h _ _ _ _
    show WResult.ok h = _
    rw [utf8Str_nil, List.append_nil, List.any_nil, Bool.or_false]
  | cons c rest ih =>
    intro h hcs hcr hcbf hlen
    have hc := hcs c (List.mem_cons_self c rest)
    have hpos := utf8Encode_length_pos c
    rw [byteLen_cons] at hlen
    have hlen1 : h.buffer.length ≠ LINE_LEN_HARD_LIMIT := by
      unfold LINE_LEN_HARD_LIMIT at hlen ⊢
      omega
    have hstep := write_char_plain h c hc.1 hc.2 hcr hcbf hlen1
    show (match EncodeHandle.internal_write_char h c with
      | .ok h2 => EncodeHandle.internal_write_str h2 rest
      | .err h2 e => .err h2 e
      | .panic => .panic) = _
    rw [hstep, pushContent_eq]
    dsimp only
    refine (ih { h with buffer := h.buffer ++ utf8Encode c
                        content_since_fws := h.content_since_fws || notWs c }
      (fun d hd => hcs d (List.mem_cons_of_mem c hd)) hcr hcbf ?_).trans ?_
    · show (h.buffer ++ utf8Encode c).length + byteLen rest ≤ LINE_LEN_HARD_LIMIT
      rw [List.length_append]
      omega
    · simp only [List.append_assoc, ← utf8Str_cons, Bool.or_assoc, ← List.any_cons]

theorem internal_write_str_append (s1 s2 : List Nat) : ∀ h : EncodeHandle,
    EncodeHandle.internal_write_str h (s1 ++ s2) =
      match EncodeHandle.internal_write_str h s1 with
      | .ok h2 => EncodeHandle.internal_write_str h2 s2
      | .err h2 e => .err h2 e
      | .panic => .panic := by
  induction s1 with
  | nil => intro h; rfl
  | cons c rest ih =>
    intro h
    show (match EncodeHandle.internal_write_char h c with
      | .ok h2 => EncodeHandle.internal_write_str h2 (rest ++ s2)
      | .err h2 e => .err h2 e
      | .panic => .panic) =
      match (match EncodeHandle.internal_write_char h c with
        | .ok h2 => EncodeHandle.internal_write_str h2 rest
        | .err h2 e => .err h2 e
        | .panic => .panic) with
      | .ok h2 => EncodeHandle.internal_write_str h2 s2
      | .err h2 e => .err h2 e
      | .panic => .panic
    cases EncodeHandle.internal_write_char h c with
    | ok h2 => exact ih h2
    | err h2 e => rfl
    | panic => rfl

/-! ### The rollback invariant: writes never disturb committed bytes -/

/-- Invariant tying a handle to its commit boundary: the boundary index
`n` (the `header_start_idx` set at creation or at the last
commit/rollback) is unchanged, the first `n` buffer bytes are still the
committed prefix `p`, and the current line start lies between the
boundary and the end of the buffer. -/
def GoodAt (n : Nat) (p : List Nat) (h : EncodeHandle) : Prop :=
  h.header_start_idx = n ∧ h.buffer.take n = p ∧ n ≤ h.line_start_idx ∧
    h.line_start_idx ≤ h.buffer.length

theorem goodAt_congr {n : Nat} {p : List Nat} {h g : EncodeHandle}
    (hg : GoodAt n p h) (hb : g.buffer = h.buffer)
    (hl : g.line_start_idx = h.line_start_idx)
    (hh : g.header_start_idx = h.header_start_idx) : GoodAt n p g := by
  obtain ⟨h1, h2, h3, h4⟩ := hg
  exact ⟨hh.trans h1, hb ▸ h2, hl ▸ h3, by rw [hl, hb]; exact h4⟩

theorem goodAt_new (mt : MailType) (B : List Nat) :
    GoodAt B.length B (EncodeHandle.new mt B) :=
  ⟨rfl, List.take_length B, Nat.le_refl _, Nat.le_refl _⟩

theorem goodAt_reinit (g : EncodeHandle) :
    GoodAt g.buffer.length g.buffer g.reinit :=
  ⟨rfl, List.take_length g.buffer, Nat.le_refl _, Nat.le_refl _⟩

theorem goodAt_mark {n : Nat} {p : List Nat} {h : EncodeHandle}
    (hg : GoodAt n p h) : GoodAt n p h.mark_fws_pos :=
  goodAt_congr hg rfl rfl rfl

theorem goodAt_start_new_line {n : Nat} {p : List Nat} {h : EncodeHandle}
    (hg : GoodAt n p h) : GoodAt n p h.start_new_line := by
  obtain ⟨h1, h2, h3, h4⟩ := hg
  unfold EncodeHandle.start_new_line
  split_ifs with hc
  · refine ⟨h1, ?_, ?_, ?_⟩
    · rw [List.take_append_of_le_length (Nat.le_trans h3 h4)]
      exact h2
    · show n ≤ (h.buffer ++ [13, 10]).length
      rw [List.length_append]
      exact Nat.le_trans (Nat.le_trans h3 h4) (Nat.le_add_right _ _)
    · exact Nat.le_refl _
  · refine ⟨h1, ?_, ?_, ?_⟩
    · rw [List.take_take, Nat.min_eq_left h3]
      exact h2
    · show n ≤ (h.buffer.take h.line_start_idx).length
      rw [List.length_take, Nat.min_eq_left h4]
      exact h3
    · exact Nat.le_refl _

theorem goodAt_break {n : Nat} {p : List Nat} {h h' : EncodeHandle} {br : Bool}
    (hg : GoodAt n p h)
    (hbr : h.break_line_on_fws = some (br, h')) : GoodAt n p h' := by
  obtain ⟨h1, h2, h3, h4⟩ := hg
  unfold EncodeHandle.break_line_on_fws at hbr
  split_ifs at hbr with hcond
  · obtain ⟨hcbf, hlt⟩ := hcond
    cases hget : h.buffer.get? h.last_fws_idx with
    | none => rw [hget] at hbr; exact absurd hbr (by simp)
    | some b =>
      rw [hget] at hbr
      have hin : h.last_fws_idx < h.buffer.length := by
        rcases List.get?_eq_some.mp hget with ⟨hlt2, _⟩
        exact hlt2
      have hnle : n ≤ h.last_fws_idx := Nat.le_trans h3 (Nat.le_of_lt hlt)
      simp only [Option.some.injEq, Prod.mk.injEq] at hbr
      obtain ⟨hbr1, hbr2⟩ := hbr
      subst hbr2
      refine ⟨h1, ?_, ?_, ?_⟩
      · show (h.buffer.take h.last_fws_idx ++ _ ++ h.buffer.drop h.last_fws_idx).take n = p
        rw [List.append_assoc, List.take_append_of_le_length
          (by rw [List.length_take, Nat.min_eq_left (Nat.le_of_lt hin)]; exact hnle)]
        rw [List.take_take, Nat.min_eq_left hnle]
        exact h2
      · show n ≤ h.last_fws_idx + 2
        exact Nat.le_trans hnle (Nat.le_add_right _ _)
      · show h.last_fws_idx + 2 ≤
          (h.buffer.take h.last_fws_idx ++ _ ++ h.buffer.drop h.last_fws_idx).length
        have h2le : 2 ≤ (if b = 32 ∨ b = 9 then [13, 10] else [13, 10, 32]).length := by
          split_ifs <;> simp
        simp only [List.length_append, List.length_take, List.length_drop,
          Nat.min_eq_left (Nat.le_of_lt hin)]
        omega
  · simp only [Option.some.injEq, Prod.mk.injEq] at hbr
    exact goodAt_congr ⟨h1, h2, h3, h4⟩ (by rw [hbr.2]) (by rw [hbr.2]) (by rw [hbr.2])

theorem goodAt_pushContent {n : Nat} {p : List Nat} {h : EncodeHandle} (c : Nat)
    (hg : GoodAt n p h) : GoodAt n p (h.pushContent c) := by
  obtain ⟨h1, h2, h3, h4⟩ := hg
  rw [pushContent_eq]
  refine ⟨h1, ?_, h3, ?_⟩
  · show (h.buffer ++ utf8Encode c).take n = p
    rw [List.take_append_of_le_length (Nat.le_trans h3 h4)]
    exact h2
  · show h.line_start_idx ≤ (h.buffer ++ utf8Encode c).length
    rw [List.length_append]
    exact Nat.le_trans h4 (Nat.le_add_right _ _)

theorem goodAt_write_plain {n : Nat} {p : List Nat} {h h' : EncodeHandle} {c : Nat}
    (hg : GoodAt n p h)
    (hw : wToOpt (EncodeHandle.internal_write_plain h c) = some h') :
    GoodAt n p h' := by
  unfold EncodeHandle.internal_write_plain at hw
  split_ifs at hw with hsoft
  · cases hbr : h.break_line_on_fws with
    | none => rw [hbr] at hw; exact absurd hw (by simp [wToOpt])
    | some pr =>
      obtain ⟨br, h2⟩ := pr
      rw [hbr] at hw
      have hg2 := goodAt_break hg hbr
      dsimp only at hw
      split_ifs at hw with hhard
      · simp only [wToOpt, Option.some.injEq] at hw
        exact hw ▸ hg2
      · simp only [wToOpt, Option.some.injEq] at hw
        exact hw ▸ goodAt_pushContent c hg2
  · simp only [wToOpt, Option.some.injEq] at hw
    exact hw ▸ goodAt_pushContent c hg

theorem goodAt_write_char {n : Nat} {p : List Nat} {h h' : EncodeHandle} {c : Nat}
    (hg : GoodAt n p h)
    (hw : wToOpt (EncodeHandle.internal_write_char h c) = some h') :
    GoodAt n p h' := by
  unfold EncodeHandle.internal_write_char at hw
  split_ifs at hw with h10 hcr hcr2 h13
  · simp only [wToOpt, Option.some.injEq] at hw
    subst hw
    exact goodAt_congr (goodAt_start_new_line hg) rfl rfl rfl
  · simp only [wToOpt, Option.some.injEq] at hw
    exact hw ▸ hg
  · simp only [wToOpt, Option.some.injEq] at hw
    exact hw ▸ hg
  · simp only [wToOpt, Option.some.injEq] at hw
    subst hw
    exact goodAt_congr hg rfl rfl rfl
  · refine goodAt_write_plain ?_ hw
    exact goodAt_congr hg rfl rfl rfl

theorem goodAt_write_str {n : Nat} {p : List Nat} (s : List Nat) :
    ∀ {h h' : EncodeHandle}, GoodAt n p h →
      wToOpt (EncodeHandle.internal_write_str h s) = some h' → GoodAt n p h' := by
  induction s with
  | nil =>
    intro h h' hg hw
    simp only [EncodeHandle.internal_write_str, wToOpt, Option.some.injEq] at hw
    exact hw ▸ hg
  | cons c rest ih =>
    intro h h' hg hw
    show GoodAt n p h'
    rw [show EncodeHandle.internal_write_str h (c :: rest) =
      (match EncodeHandle.internal_write_char h c with
        | .ok h2 => EncodeHandle.internal_write_str h2 rest
        | .err h2 e => .err h2 e
        | .panic => .panic) from rfl] at hw
    cases hch : EncodeHandle.internal_write_char h c with
    | ok h2 =>
      rw [hch] at hw
      exact ih (goodAt_write_char hg (by rw [hch]; rfl)) hw
    | err h2 e =>
      rw [hch] at hw
      simp only [wToOpt, Option.some.injEq] at hw
      exact hw ▸ goodAt_write_char hg (by rw [hch]; rfl)
    | panic =>
      rw [hch] at hw
      exact absurd hw (by simp [wToOpt])

theorem goodAt_applyWriteOp {n : Nat} {p : List Nat} {h h' : EncodeHandle}
    {op : WriteOp} (hg : GoodAt n p h)
    (hw : applyWriteOp h op = some h') : GoodAt n p h' := by
  cases op with
  | wchar c => exact goodAt_write_char hg hw
  | wstr s => exact goodAt_write_str s hg hw
  | wutf8 s =>
    unfold applyWriteOp EncodeHandle.write_utf8 at hw
    split_ifs at hw with hint
    · exact goodAt_write_str s hg hw
    · simp only [wToOpt, Option.some.injEq] at hw
      exact hw ▸ hg
  | wunchecked s => exact goodAt_write_str s hg hw
  | markfws =>
    simp only [applyWriteOp, Option.some.injEq] at hw
    exact hw ▸ goodAt_mark hg
  | wfws =>
    unfold applyWriteOp EncodeHandle.write_fws at hw
    exact goodAt_write_char (goodAt_mark hg) hw

theorem goodAt_runWriteOps {n : Nat} {p : List Nat} (ops : List WriteOp) :
    ∀ {h h' : EncodeHandle}, GoodAt n p h →
      runWriteOps h ops = some h' → GoodAt n p h' := by
  induction ops with
  | nil =>
    intro h h' hg hw
    simp only [runWriteOps, Option.some.injEq] at hw
    exact hw ▸ hg
  | cons op rest ih =>
    intro h h' hg hw
    show GoodAt n p h'
    rw [show runWriteOps h (op :: rest) =
      (match applyWriteOp h op with
        | some h2 => runWriteOps h2 rest
        | none => none) from rfl] at hw
    cases hop : applyWriteOp h op with
    | some h2 =>
      rw [hop] at hw
      exact ih (goodAt_applyWriteOp hg hop) hw
    | none => rw [hop] at hw; exact absurd hw (by simp)

theorem undo_header_buffer (h : EncodeHandle) :
    h.undo_header.buffer = h.buffer.take h.header_start_idx := rfl

theorem finish_header_buffer (h : EncodeHandle) :
    h.finish_header.buffer = h.start_new_line.buffer := rfl

/-! ### Further supporting lemmas -/

theorem write_replicate_X (n : Nat) (h : EncodeHandle)
    (hcr : h.skipped_cr = false) (hcbf : h.content_before_fws = false)
    (hlen : h.buffer.length + n ≤ LINE_LEN_HARD_LIMIT) (hn : 0 < n) :
    EncodeHandle.internal_write_str h (List.replicate n 88) =
      WResult.ok { h with buffer := h.buffer ++ List.replicate n 88
                          content_since_fws := true } := by
  have h128 : ∀ c ∈ List.replicate n 88, c < 128 := by
    intro c hc
    rw [List.eq_of_mem_replicate hc]
    omega
  have hcrlf : ∀ c ∈ List.replicate n 88, c ≠ 10 ∧ c ≠ 13 := by
    intro c hc
    rw [List.eq_of_mem_replicate hc]
    omega
  have hany : (List.replicate n 88).any notWs = true := by
    rw [List.any_eq_true]
    exact ⟨88, List.mem_replicate.mpr ⟨by omega, rfl⟩, by decide⟩
  have hblen : byteLen (List.replicate n 88) = n := by
    rw [byteLen, utf8Str_ascii h128, List.length_replicate]
  have hw := write_str_plain (List.replicate n 88) h hcrlf hcr hcbf
    (by rw [hblen]; exact hlen)
  rw [hw, utf8Str_ascii h128, hany, Bool.or_true]

theorem start_new_line_skipped (g : EncodeHandle) :
    g.start_new_line.skipped_cr = g.skipped_cr := by
  unfold EncodeHandle.start_new_line
  dsimp only
  split_ifs <;> rfl

theorem start_new_line_set_cr (g : EncodeHandle) :
    ({ g with skipped_cr := true } : EncodeHandle).start_new_line
      = { g.start_new_line with skipped_cr := true } := by
  unfold EncodeHandle.start_new_line EncodeHandle.line_has_content
  dsimp only
  split_ifs <;> rfl

theorem reinit_start_new_line (g : EncodeHandle) :
    g.reinit.start_new_line = g.reinit := by
  unfold EncodeHandle.start_new_line EncodeHandle.line_has_content EncodeHandle.reinit
  dsimp only
  rw [if_neg (by simp), List.take_length]

theorem reinit_reinit (g : EncodeHandle) : g.reinit.reinit = g.reinit := rfl

/-- Spec-side description of `to_vec`, following the spec's words:
the rendered output is the concatenation, in section order, of each
text section's raw bytes and each body section's bytes obtained via
`with_slice` (with CRLF appended exactly when the body bytes do not
already end in CRLF); the first body-access failure aborts the whole
rendering with that error. -/
def toVecSpec : List Section → Except EncodingError (List Nat)
  | [] => .ok []
  | sec :: rest =>
    match sectionBytesSpec sec, toVecSpec rest with
    | .ok bs, .ok restBytes => .ok (bs ++ restBytes)
    | .error e, _ => .error e
    | .ok _, .error e => .error e

theorem toVecAux_eq (secs : List Section) : ∀ out : List Nat,
    toVecAux out secs = Except.map (fun bs => out ++ bs) (toVecSpec secs) := by
  induction secs with
  | nil =>
    intro out
    simp [toVecAux, toVecSpec, Except.map]
  | cons sec rest ih =>
    intro out
    cases sec with
    | String s =>
      show toVecAux (out ++ s) rest = _
      rw [ih]
      cases htv : toVecSpec rest with
      | ok bs => simp [toVecSpec, sectionBytesSpec, htv, Except.map, List.append_assoc]
      | error e => simp [toVecSpec, sectionBytesSpec, htv, Except.map]
    | BodyPayload b =>
      cases b with
      | avail bytes =>
        show toVecAux (out ++ bytes ++ _) rest = _
        rw [ih]
        cases htv : toVecSpec rest with
        | ok bs =>
          simp [toVecSpec, sectionBytesSpec, with_slice, htv, Except.map,
            List.append_assoc]
        | error e => simp [toVecSpec, sectionBytesSpec, with_slice, htv, Except.map]
      | failed e =>
        show Except.error e = _
        simp [toVecSpec, sectionBytesSpec, with_slice, Except.map]

theorem toVecSpec_error_iff (secs : List Section) :
    (∃ e, toVecSpec secs = Except.error e) ↔
      ∃ e, Section.BodyPayload (BodyRep.failed e) ∈ secs := by
  induction secs with
  | nil => simp [toVecSpec]
  | cons sec rest ih =>
    cases sec with
    | String s =>
      cases htv : toVecSpec rest with
      | ok bs => simp [toVecSpec, sectionBytesSpec, htv, ← ih]
      | error e => simp [toVecSpec, sectionBytesSpec, htv, ← ih]
    | BodyPayload b =>
      cases b with
      | avail bytes =>
        cases htv : toVecSpec rest with
        | ok bs => simp [toVecSpec, sectionBytesSpec, with_slice, htv, ← ih]
        | error e => simp [toVecSpec, sectionBytesSpec, with_slice, htv, ← ih]
      | failed e => simp [toVecSpec, sectionBytesSpec, with_slice]

/-! ### Claim theorems -/

/-- Claim C3: for every buffer state at handle creation and every
panic-free sequence of write operations (successful or failed),
`undo_header()` truncates the buffer back exactly to its state at the
boundary; a `finish_header` (or `undo_header`) sets a new boundary, so
writes committed earlier are not undone by a later rollback. -/
theorem undo_header_restores_boundary (mt : MailType) (B : List Nat)
    (ops1 ops2 ops3 : List WriteOp) (h1 h2 h3 : EncodeHandle)
    (hrun1 : runWriteOps (EncodeHandle.new mt B) ops1 = some h1)
    (hrun2 : runWriteOps h1.finish_header ops2 = some h2)
    (hrun3 : runWriteOps h1.undo_header ops3 = some h3) :
    h1.undo_header.buffer = B ∧
      h2.undo_header.buffer = h1.finish_header.buffer ∧
      h3.undo_header.buffer = h1.undo_header.buffer := by
  have g1 : GoodAt B.length B h1 :=
    goodAt_runWriteOps ops1 (goodAt_new mt B) hrun1
  refine ⟨?_, ?_, ?_⟩
  · rw [undo_header_buffer, g1.1]
    exact g1.2.1
  · have gf : GoodAt h1.finish_header.buffer.length h1.finish_header.buffer
        h1.finish_header := goodAt_reinit h1.start_new_line
    have g2 := goodAt_runWriteOps ops2 gf hrun2
    rw [undo_header_buffer, g2.1]
    exact g2.2.1
  · have gu : GoodAt h1.undo_header.buffer.length h1.undo_header.buffer
        h1.undo_header :=
      goodAt_reinit { h1 with buffer := h1.buffer.take h1.header_start_idx }
    have g3 := goodAt_runWriteOps ops3 gu hrun3
    rw [undo_header_buffer, g3.1]
    exact g3.2.1

/-- Witness for C3: header "Hi" already committed, then two chars,
a fold mark and a failing orphan-newline write; `undo_header` returns
to "Hi", and boundaries set by `finish_header`/`undo_header` are
respected by later rollbacks. -/
theorem undo_header_restores_boundary_witness :
    (runWriteOps (EncodeHandle.new MailType.Ascii [72, 105])
        [WriteOp.wstr [88, 89], WriteOp.markfws, WriteOp.wchar 10] =
      some ⟨[72, 105, 88, 89], MailType.Ascii, 2, 4, false, false, true, 2⟩) ∧
    (runWriteOps (⟨[72, 105, 88, 89], MailType.Ascii, 2, 4, false, false, true, 2⟩ :
        EncodeHandle).finish_header [WriteOp.wunchecked [90]] =
      some ⟨[72, 105, 88, 89, 13, 10, 90], MailType.Ascii, 6, 6, false, true, false, 6⟩) ∧
    (runWriteOps (⟨[72, 105, 88, 89], MailType.Ascii, 2, 4, false, false, true, 2⟩ :
        EncodeHandle).undo_header [WriteOp.wchar 65] =
      some ⟨[72, 105, 65], MailType.Ascii, 2, 2, false, true, false, 2⟩) ∧
    ((⟨[72, 105, 88, 89], MailType.Ascii, 2, 4, false, false, true, 2⟩ :
        EncodeHandle).undo_header.buffer = [72, 105] ∧
      (⟨[72, 105, 88, 89, 13, 10, 90], MailType.Ascii, 6, 6, false, true, false, 6⟩ :
        EncodeHandle).undo_header.buffer =
        (⟨[72, 105, 88, 89], MailType.Ascii, 2, 4, false, false, true, 2⟩ :
          EncodeHandle).finish_header.buffer ∧
      (⟨[72, 105, 65], MailType.Ascii, 2, 2, false, true, false, 2⟩ :
        EncodeHandle).undo_header.buffer =
        (⟨[72, 105, 88, 89], MailType.Ascii, 2, 4, false, false, true, 2⟩ :
          EncodeHandle).undo_header.buffer) :=
  ⟨by decide, by decide, by decide,
    undo_header_restores_boundary MailType.Ascii [72, 105]
      [WriteOp.wstr [88, 89], WriteOp.markfws, WriteOp.wchar 10]
      [WriteOp.wunchecked [90]] [WriteOp.wchar 65]
      ⟨[72, 105, 88, 89], MailType.Ascii, 2, 4, false, false, true, 2⟩
      ⟨[72, 105, 88, 89, 13, 10, 90], MailType.Ascii, 6, 6, false, true, false, 6⟩
      ⟨[72, 105, 65], MailType.Ascii, 2, 2, false, true, false, 2⟩
      (by decide) (by decide) (by decide)⟩

/-- Claim C8: `finish_header` is idempotent: a second (third, ...)
consecutive call leaves the handle, and hence the buffer, unchanged. -/
theorem finish_header_idempotent (h : EncodeHandle) :
    h.finish_header.finish_header = h.finish_header := by
  show h.start_new_line.reinit.start_new_line.reinit = h.start_new_line.reinit
  rw [reinit_start_new_line, reinit_reinit]

/-- Claim C9: `to_vec` renders the concatenation, in order, of each
text section's raw bytes and each body's bytes obtained via
`with_slice`, appending CRLF after a body exactly when its bytes do not
already end in CRLF (text sections are never modified), and it fails
exactly when some `with_slice` call fails. -/
theorem to_vec_renders_sections (enc : Encoder) :
    enc.to_vec = toVecSpec enc.sections ∧
      ((∃ e, enc.to_vec = Except.error e) ↔
        ∃ e, Section.BodyPayload (BodyRep.failed e) ∈ enc.sections) := by
  have h1 : enc.to_vec = toVecSpec enc.sections := by
    rw [Encoder.to_vec, toVecAux_eq]
    cases toVecSpec enc.sections <;> simp [Except.map]
  exact ⟨h1, by rw [h1]; exact toVecSpec_error_iff enc.sections⟩

/-- Counterexample to C4 as stated: a field consisting of three
spaces, committed with `finish_header()`, truncates to the empty
string, not to "\r\n". -/
theorem ws_only_field_counterexample :
    Option.map (fun h => (EncodeHandle.finish_header h).buffer)
      (runWriteOps (EncodeHandle.new MailType.Ascii []) [WriteOp.wstr [32, 32, 32]]) =
      some [] ∧ ([] : List Nat) ≠ [13, 10] :=
  ⟨by decide, by decide⟩

/-- Claim C4 (amended): a header field whose written content consists
only of whitespace is truncated by `finish_header()` back to the field
start: the whitespace is removed and nothing (not even a CRLF) is
emitted, so no blank line ever appears. -/
theorem ws_only_field_truncates (h : EncodeHandle) (s : List Nat)
    (hws : ∀ c ∈ s, c = 32 ∨ c = 9)
    (hcr : h.skipped_cr = false) (hcsf : h.content_since_fws = false)
    (hcbf : h.content_before_fws = false)
    (hls : h.line_start_idx = h.buffer.length)
    (hlen : h.buffer.length + s.length ≤ LINE_LEN_HARD_LIMIT) :
    EncodeHandle.internal_write_str h s = WResult.ok { h with buffer := h.buffer ++ s } ∧
      ({ h with buffer := h.buffer ++ s } : EncodeHandle).finish_header.buffer = h.buffer := by
  have hws128 : ∀ c ∈ s, c < 128 := by
    intro c hc
    rcases hws c hc with hc2 | hc2 <;> omega
  have hcrlf : ∀ c ∈ s, c ≠ 10 ∧ c ≠ 13 := by
    intro c hc
    rcases hws c hc with hc2 | hc2 <;> omega
  have hany : s.any notWs = false := by
    rw [List.any_eq_false]
    intro c hc
    rcases hws c hc with hc2 | hc2 <;> simp [notWs, hc2]
  have hslen : byteLen s = s.length := by
    rw [byteLen, utf8Str_ascii hws128]
  have hstr := write_str_plain s h hcrlf hcr hcbf (by rw [hslen]; exact hlen)
  constructor
  · rw [hstr, utf8Str_ascii hws128, hany, Bool.or_false, hcsf]
  · have hcont : EncodeHandle.line_has_content
        ({ h with buffer := h.buffer ++ s } : EncodeHandle) = false := by
      unfold EncodeHandle.line_has_content
      dsimp only
      rw [hcbf, hcsf]
      rfl
    show ({ h with buffer := h.buffer ++ s } : EncodeHandle).start_new_line.reinit.buffer = h.buffer
    unfold EncodeHandle.start_new_line EncodeHandle.reinit
    rw [if_neg (by rw [hcont]; exact Bool.false_ne_true)]
    dsimp only
    rw [hls, List.take_append_of_le_length (Nat.le_refl _), List.take_length]

/-- Witness for C4 (amended): writing " \t " on a fresh handle over an
empty buffer and finishing leaves the buffer empty. -/
theorem ws_only_field_truncates_witness :
    ((∀ c ∈ [32, 9, 32], c = 32 ∨ c = 9) ∧
      (EncodeHandle.new MailType.Ascii []).skipped_cr = false ∧
      (EncodeHandle.new MailType.Ascii []).buffer.length + [32, 9, 32].length ≤
        LINE_LEN_HARD_LIMIT) ∧
    (EncodeHandle.internal_write_str (EncodeHandle.new MailType.Ascii []) [32, 9, 32] =
        WResult.ok { EncodeHandle.new MailType.Ascii [] with buffer := [] ++ [32, 9, 32] } ∧
      ({ EncodeHandle.new MailType.Ascii [] with buffer := [] ++ [32, 9, 32] } :
          EncodeHandle).finish_header.buffer = []) :=
  ⟨⟨by decide, rfl, by decide⟩,
    ws_only_field_truncates (EncodeHandle.new MailType.Ascii []) [32, 9, 32]
      (by decide) rfl rfl rfl rfl (by decide)⟩

/-- Counterexample to C5 as stated: s = " " contains no CR and no LF,
yet writing it on a fresh handle and finishing yields the empty buffer,
not " \r\n". -/
theorem plain_write_finish_counterexample :
    Option.map (fun h => (EncodeHandle.finish_header h).buffer)
      (runWriteOps (EncodeHandle.new MailType.Ascii []) [WriteOp.wunchecked [32]]) =
      some [] ∧ ([] : List Nat) ≠ [32, 13, 10] :=
  ⟨by decide, by decide⟩

/-- Claim C5 (amended): for every string with no CR/LF, at least one
non-whitespace character, and UTF-8 byte length at most 998, writing it
through a fresh handle over an empty buffer and then calling
`finish_header()` yields exactly the string's bytes followed by CRLF. -/
theorem plain_write_finish (mt : MailType) (s : List Nat)
    (hcrlf : ∀ c ∈ s, c ≠ 10 ∧ c ≠ 13)
    (hnws : s.any notWs = true)
    (hlen : byteLen s ≤ LINE_LEN_HARD_LIMIT) :
    EncodeHandle.internal_write_str (EncodeHandle.new mt []) s =
      WResult.ok ⟨utf8Str s, mt, 0, 0, false, true, false, 0⟩ ∧
    (⟨utf8Str s, mt, 0, 0, false, true, false, 0⟩ :
      EncodeHandle).finish_header.buffer = utf8Str s ++ [13, 10] := by
  constructor
  · have hw := write_str_plain s (EncodeHandle.new mt []) hcrlf rfl rfl
      (by show ([] : List Nat).length + byteLen s ≤ LINE_LEN_HARD_LIMIT; simpa using hlen)
    rw [hw, hnws]
    rfl
  · rfl

/-- Witness for C5 (amended): writing "Hi!" and finishing yields
"Hi!\r\n". -/
theorem plain_write_finish_witness :
    ((∀ c ∈ [72, 105, 33], c ≠ 10 ∧ c ≠ 13) ∧
      [72, 105, 33].any notWs = true ∧
      byteLen [72, 105, 33] ≤ LINE_LEN_HARD_LIMIT) ∧
    (EncodeHandle.internal_write_str (EncodeHandle.new MailType.Ascii [])
        [72, 105, 33] =
      WResult.ok ⟨utf8Str [72, 105, 33], MailType.Ascii, 0, 0, false, true, false, 0⟩ ∧
    (⟨utf8Str [72, 105, 33], MailType.Ascii, 0, 0, false, true, false, 0⟩ :
      EncodeHandle).finish_header.buffer = utf8Str [72, 105, 33] ++ [13, 10]) :=
  ⟨⟨by decide, by decide, by decide⟩,
    plain_write_finish MailType.Ascii [72, 105, 33] (by decide) (by decide) (by decide)⟩

/-- Claim C1 (code bug): the hard-limit check compares the WHOLE
buffer length against 998 (src/encoder/mod.rs line 683:
`self.buffer.len() == LINE_LEN_HARD_LIMIT`), not the current line
length.  On a fresh handle over an empty buffer the two coincide:
998 chars succeed and the 999th fails.  But on a handle opened over a
buffer already holding 6 committed bytes, the 993rd char fails with
`HardLineLengthLimitBreached` although the current line is only
992 bytes long — refuting "fails exactly when the current physical
line (not the whole buffer) has already reached 998 bytes". -/
theorem hard_limit_checks_whole_buffer :
    (EncodeHandle.internal_write_str (EncodeHandle.new MailType.Ascii [])
        (List.replicate 998 88) =
      WResult.ok ⟨List.replicate 998 88, MailType.Ascii, 0, 0, false, true, false, 0⟩) ∧
    (EncodeHandle.internal_write_str (EncodeHandle.new MailType.Ascii [])
        (List.replicate 999 88) =
      WResult.err ⟨List.replicate 998 88, MailType.Ascii, 0, 0, false, true, false, 0⟩
        ⟨.HardLineLengthLimitBreached, some MailType.Ascii⟩) ∧
    (EncodeHandle.internal_write_str
        (EncodeHandle.new MailType.Ascii (List.replicate 6 65))
        (List.replicate 993 88) =
      WResult.err
        ⟨List.replicate 6 65 ++ List.replicate 992 88, MailType.Ascii,
          6, 6, false, true, false, 6⟩
        ⟨.HardLineLengthLimitBreached, some MailType.Ascii⟩) ∧
    EncodeHandle.current_line_byte_length
      ⟨List.replicate 6 65 ++ List.replicate 992 88, MailType.Ascii,
        6, 6, false, true, false, 6⟩ = 992 ∧
    (992 : Nat) < 998 := by
  have st1 : EncodeHandle.internal_write_str (EncodeHandle.new MailType.Ascii [])
      (List.replicate 998 88) =
      WResult.ok ⟨List.replicate 998 88, MailType.Ascii, 0, 0, false, true, false, 0⟩ := by
    have hw := write_replicate_X 998 (EncodeHandle.new MailType.Ascii [])
      rfl rfl (by decide) (by omega)
    rw [hw]
    rfl
  have hch1 : EncodeHandle.internal_write_char
      (⟨List.replicate 998 88, MailType.Ascii, 0, 0, false, true, false, 0⟩ :
        EncodeHandle) 88 =
      WResult.err ⟨List.replicate 998 88, MailType.Ascii, 0, 0, false, true, false, 0⟩
        ⟨.HardLineLengthLimitBreached, some MailType.Ascii⟩ := by
    have := write_char_hard
      ⟨List.replicate 998 88, MailType.Ascii, 0, 0, false, true, false, 0⟩ 88
      (by omega) (by omega) rfl rfl
      (by show (List.replicate 998 88).length = _
          rw [List.length_replicate]
          rfl)
      (by unfold EncodeHandle.current_line_byte_length
          dsimp only
          rw [List.length_replicate]
          decide)
    exact this
  have st2 : EncodeHandle.internal_write_str
      (EncodeHandle.new MailType.Ascii (List.replicate 6 65))
      (List.replicate 992 88) =
      WResult.ok ⟨List.replicate 6 65 ++ List.replicate 992 88, MailType.Ascii,
        6, 6, false, true, false, 6⟩ := by
    have hw := write_replicate_X 992 (EncodeHandle.new MailType.Ascii (List.replicate 6 65))
      rfl rfl
      (by show (List.replicate 6 65).length + 992 ≤ _
          rw [List.length_replicate]
          decide)
      (by omega)
    rw [hw]
    rfl
  have hch2 : EncodeHandle.internal_write_char
      (⟨List.replicate 6 65 ++ List.replicate 992 88, MailType.Ascii,
        6, 6, false, true, false, 6⟩ : EncodeHandle) 88 =
      WResult.err ⟨List.replicate 6 65 ++ List.replicate 992 88, MailType.Ascii,
        6, 6, false, true, false, 6⟩
        ⟨.HardLineLengthLimitBreached, some MailType.Ascii⟩ := by
    have := write_char_hard
      ⟨List.replicate 6 65 ++ List.replicate 992 88, MailType.Ascii,
        6, 6, false, true, false, 6⟩ 88
      (by omega) (by omega) rfl rfl
      (by show (List.replicate 6 65 ++ List.replicate 992 88).length = _
          rw [List.length_append, List.length_replicate, List.length_replicate]
          decide)
      (by unfold EncodeHandle.current_line_byte_length
          dsimp only
          rw [List.length_append, List.length_replicate, List.length_replicate]
          decide)
    exact this
  have hsplit1 : List.replicate 999 88 = List.replicate 998 88 ++ [88] :=
    List.replicate_succ' 998 88
  have hsplit2 : List.replicate 993 88 = List.replicate 992 88 ++ [88] :=
    List.replicate_succ' 992 88
  refine ⟨st1, ?_, ?_, ?_, by omega⟩
  · rw [hsplit1, internal_write_str_append, st1]
    dsimp only
    show (match EncodeHandle.internal_write_char
        (⟨List.replicate 998 88, MailType.Ascii, 0, 0, false, true, false, 0⟩ :
          EncodeHandle) 88 with
      | .ok h2 => EncodeHandle.internal_write_str h2 []
      | .err h2 e => .err h2 e
      | .panic => .panic) = _
    rw [hch1]
  · rw [hsplit2, internal_write_str_append, st2]
    dsimp only
    show (match EncodeHandle.internal_write_char
        (⟨List.replicate 6 65 ++ List.replicate 992 88, MailType.Ascii,
          6, 6, false, true, false, 6⟩ : EncodeHandle) 88 with
      | .ok h2 => EncodeHandle.internal_write_str h2 []
      | .err h2 e => .err h2 e
      | .panic => .panic) = _
    rw [hch2]
  · show (List.replicate 6 65 ++ List.replicate 992 88).length - 6 = 992
    rw [List.length_append, List.length_replicate, List.length_replicate]

/-- Counterexample to C2 as stated: after "A23456789:", a fold mark,
and 69 more chars, the fold inserts the three bytes CR LF SP at the
fold point 10, but `line_start_idx` ends up at 12 = fold point + 2,
which is NOT past the three inserted bytes (that would be 13): the
inserted space belongs to the new line. -/
theorem fold_line_start_counterexample :
    runWriteOps (EncodeHandle.new MailType.Ascii [])
      [WriteOp.wstr [65, 50, 51, 52, 53, 54, 55, 56, 57, 58], WriteOp.markfws,
        WriteOp.wstr (List.replicate 69 88)] =
      some ⟨[65, 50, 51, 52, 53, 54, 55, 56, 57, 58] ++ [13, 10, 32] ++
          List.replicate 69 88,
        MailType.Ascii, 12, 10, false, true, false, 0⟩ ∧
    (⟨[65, 50, 51, 52, 53, 54, 55, 56, 57, 58] ++ [13, 10, 32] ++
          List.replicate 69 88,
        MailType.Ascii, 12, 10, false, true, false, 0⟩ :
      EncodeHandle).line_start_idx = 12 ∧
    (12 : Nat) < 10 + 3 :=
  ⟨by decide, by decide, by decide⟩

/-- Claim C2 (amended): on a character write finding the line at or
past the soft limit, with a usable fold point (strictly after the line
start, content before it, and — forced by the unguarded index, see
C10 — inside the buffer), a break is inserted retroactively at the
fold point: CR LF when the byte at the fold point is a space or tab,
CR LF SP otherwise, and `line_start_idx` becomes fold point + 2, i.e.
just past the inserted CRLF (an inserted space starts the new line). -/
theorem fold_inserts_at_fws (h : EncodeHandle) (c b : Nat)
    (hc10 : c ≠ 10) (hc13 : c ≠ 13) (hcr : h.skipped_cr = false)
    (hsoft : LINE_LEN_SOFT_LIMIT ≤ h.current_line_byte_length)
    (hcbf : h.content_before_fws = true)
    (hlt : h.line_start_idx < h.last_fws_idx)
    (hget : h.buffer.get? h.last_fws_idx = some b) :
    EncodeHandle.internal_write_char h c = WResult.ok
      { h with
        buffer := (h.buffer.take h.last_fws_idx ++
          (if b = 32 ∨ b = 9 then [13, 10] else [13, 10, 32]) ++
          h.buffer.drop h.last_fws_idx) ++ utf8Encode c
        line_start_idx := h.last_fws_idx + 2
        content_before_fws := false
        content_since_fws := h.content_since_fws || notWs c } := by
  have heta : ({ h with skipped_cr := false } : EncodeHandle) = h := by rw [← hcr]
  have hbrk : h.break_line_on_fws = some (true, { h with
      buffer := h.buffer.take h.last_fws_idx ++
        (if b = 32 ∨ b = 9 then [13, 10] else [13, 10, 32]) ++
        h.buffer.drop h.last_fws_idx
      line_start_idx := h.last_fws_idx + 2
      content_before_fws := false }) := by
    unfold EncodeHandle.break_line_on_fws
    rw [if_pos ⟨hcbf, hlt⟩, hget]
  unfold EncodeHandle.internal_write_char
  rw [if_neg hc10, hcr]
  simp only [Bool.false_eq_true, if_false]
  rw [if_neg hc13, heta]
  unfold EncodeHandle.internal_write_plain
  rw [if_pos hsoft, hbrk]
  dsimp only
  rw [if_neg (by simp)]
  rw [pushContent_eq]
  dsimp only
  rw [hcr]

/-- Witness for C2 (amended): a line of 78 'X' bytes with a fold point
at index 10; writing 'Y' folds at index 10 with CR LF SP (the byte
there is 'X', not whitespace) and sets line_start_idx to 12. -/
theorem fold_inserts_at_fws_witness :
    ((89 : Nat) ≠ 10 ∧
      (⟨List.replicate 78 88, MailType.Ascii, 0, 10, false, true, true, 0⟩ :
        EncodeHandle).skipped_cr = false ∧
      LINE_LEN_SOFT_LIMIT ≤ EncodeHandle.current_line_byte_length
        ⟨List.replicate 78 88, MailType.Ascii, 0, 10, false, true, true, 0⟩ ∧
      (List.replicate 78 88).get? 10 = some 88) ∧
    EncodeHandle.internal_write_char
        (⟨List.replicate 78 88, MailType.Ascii, 0, 10, false, true, true, 0⟩ :
          EncodeHandle) 89 = WResult.ok
      { (⟨List.replicate 78 88, MailType.Ascii, 0, 10, false, true, true, 0⟩ :
          EncodeHandle) with
        buffer := ((List.replicate 78 88).take 10 ++
          (if (88 : Nat) = 32 ∨ (88 : Nat) = 9 then [13, 10] else [13, 10, 32]) ++
          (List.replicate 78 88).drop 10) ++ utf8Encode 89
        line_start_idx := 10 + 2
        content_before_fws := false
        content_since_fws := true || notWs 89 } :=
  ⟨⟨by decide, rfl, by decide, by decide⟩,
    fold_inserts_at_fws
      ⟨List.replicate 78 88, MailType.Ascii, 0, 10, false, true, true, 0⟩ 89 88
      (by decide) (by decide) rfl (by decide) rfl (by decide) (by decide)⟩

/-- Claim C6: the CRLF state machine: an LF with no pending CR fails
with `Malformed`; any non-LF character with a pending CR fails with
`Malformed`; a CR-LF pair is accepted as one logical newline
(`start_new_line`); and a handle whose last write ended on a bare CR
still succeeds at `finish_header()`, the CR being subsumed by the
terminating CRLF ("H: a\r" finishes to "H: a\r\n"). -/
theorem crlf_state_machine (h1 h2 h3 : EncodeHandle) (c : Nat)
    (k1 : h1.skipped_cr = false)
    (k2 : h2.skipped_cr = true) (hc : c ≠ 10)
    (k3 : h3.skipped_cr = false) :
    EncodeHandle.write_char h1 10 =
      WResult.err h1 ⟨.Malformed, some h1.mail_type⟩ ∧
    EncodeHandle.write_char h2 c =
      WResult.err h2 ⟨.Malformed, some h2.mail_type⟩ ∧
    EncodeHandle.write_str h3 [13, 10] = WResult.ok h3.start_new_line ∧
    (EncodeHandle.internal_write_str (EncodeHandle.new MailType.Ascii [])
        [72, 58, 32, 97, 13] =
      WResult.ok ⟨[72, 58, 32, 97], MailType.Ascii, 0, 0, true, true, false, 0⟩ ∧
      (⟨[72, 58, 32, 97], MailType.Ascii, 0, 0, true, true, false, 0⟩ :
        EncodeHandle).finish_header.buffer = [72, 58, 32, 97, 13, 10]) := by
  refine ⟨?_, ?_, ?_, by decide, by decide⟩
  · unfold EncodeHandle.write_char EncodeHandle.internal_write_char
    rw [if_pos rfl, k1]
    simp only [Bool.false_eq_true, if_false]
  · unfold EncodeHandle.write_char EncodeHandle.internal_write_char
    rw [if_neg hc, k2]
    simp only [if_true]
  · have s1 : EncodeHandle.internal_write_char h3 13 =
        WResult.ok { h3 with skipped_cr := true } := by
      unfold EncodeHandle.internal_write_char
      rw [if_neg (by omega), k3]
      simp only [Bool.false_eq_true, if_false]
      rw [if_true]
    have hsnl : h3.start_new_line.skipped_cr = false :=
      (start_new_line_skipped h3).trans k3
    have s2 : EncodeHandle.internal_write_char
        ({ h3 with skipped_cr := true } : EncodeHandle) 10 =
        WResult.ok h3.start_new_line := by
      show WResult.ok
          { ({ h3 with skipped_cr := true } : EncodeHandle).start_new_line with
            skipped_cr := false } = WResult.ok h3.start_new_line
      rw [start_new_line_set_cr]
      dsimp only
      rw [← hsnl]
    show (match EncodeHandle.internal_write_char h3 13 with
      | .ok a => EncodeHandle.internal_write_str a [10]
      | .err a e => .err a e
      | .panic => .panic) = WResult.ok h3.start_new_line
    rw [s1]
    dsimp only
    show (match EncodeHandle.internal_write_char
        ({ h3 with skipped_cr := true } : EncodeHandle) 10 with
      | .ok a => EncodeHandle.internal_write_str a []
      | .err a e => .err a e
      | .panic => .panic) = WResult.ok h3.start_new_line
    rw [s2]
    rfl

/-- Witness for C6: a fresh handle rejects a bare LF; a handle with a
pending CR rejects 'X'; CRLF through a fresh handle is one logical
newline; and "H: a" followed by a bare CR finishes to "H: a\r\n". -/
theorem crlf_state_machine_witness :
    ((EncodeHandle.new MailType.Ascii []).skipped_cr = false ∧
      (⟨[], MailType.Ascii, 0, 0, true, false, false, 0⟩ :
        EncodeHandle).skipped_cr = true ∧
      (88 : Nat) ≠ 10) ∧
    (EncodeHandle.write_char (EncodeHandle.new MailType.Ascii []) 10 =
        WResult.err (EncodeHandle.new MailType.Ascii [])
          ⟨.Malformed, some MailType.Ascii⟩ ∧
      EncodeHandle.write_char
          (⟨[], MailType.Ascii, 0, 0, true, false, false, 0⟩ : EncodeHandle) 88 =
        WResult.err (⟨[], MailType.Ascii, 0, 0, true, false, false, 0⟩ : EncodeHandle)
          ⟨.Malformed, some MailType.Ascii⟩ ∧
      EncodeHandle.write_str (EncodeHandle.new MailType.Ascii []) [13, 10] =
        WResult.ok (EncodeHandle.new MailType.Ascii []).start_new_line ∧
      (EncodeHandle.internal_write_str (EncodeHandle.new MailType.Ascii [])
          [72, 58, 32, 97, 13] =
        WResult.ok ⟨[72, 58, 32, 97], MailType.Ascii, 0, 0, true, true, false, 0⟩ ∧
        (⟨[72, 58, 32, 97], MailType.Ascii, 0, 0, true, true, false, 0⟩ :
          EncodeHandle).finish_header.buffer = [72, 58, 32, 97, 13, 10])) :=
  ⟨⟨rfl, rfl, by decide⟩,
    crlf_state_machine (EncodeHandle.new MailType.Ascii [])
      ⟨[], MailType.Ascii, 0, 0, true, false, false, 0⟩
      (EncodeHandle.new MailType.Ascii []) 88 rfl rfl (by decide) rfl⟩

/-- Claim C7: `write_utf8` succeeds (delegating to the raw
byte-appending write, subject to the line/CRLF rules) exactly when the
mail type is internationalized; otherwise it fails with
`InvalidTextEncoding { expected: us-ascii, got: utf-8 }` leaving the
handle untouched — even for pure-ASCII input, since only the mail type
is inspected.  `is_internationalized` holds only for
`Internationalized`, so `Ascii` and `Mime8BitEnabled` both fail. -/
theorem write_utf8_requires_internationalized (h1 h2 : EncodeHandle)
    (s1 s2 : List Nat)
    (k1 : h1.mail_type.is_internationalized = false)
    (k2 : h2.mail_type.is_internationalized = true)
    (k3 : h2.skipped_cr = false) (k4 : h2.content_before_fws = false)
    (k5 : ∀ c ∈ s2, c ≠ 10 ∧ c ≠ 13)
    (k6 : h2.buffer.length + byteLen s2 ≤ LINE_LEN_HARD_LIMIT) :
    EncodeHandle.write_utf8 h1 s1 =
      WResult.err h1 ⟨.InvalidTextEncoding US_ASCII UTF_8, some h1.mail_type⟩ ∧
    EncodeHandle.write_utf8 h2 s2 = EncodeHandle.internal_write_str h2 s2 ∧
    EncodeHandle.write_utf8 h2 s2 = WResult.ok { h2 with
        buffer := h2.buffer ++ utf8Str s2
        content_since_fws := h2.content_since_fws || s2.any notWs } ∧
    MailType.is_internationalized MailType.Ascii = false ∧
    MailType.is_internationalized MailType.Mime8BitEnabled = false ∧
    MailType.is_internationalized MailType.Internationalized = true := by
  have e2 : EncodeHandle.write_utf8 h2 s2 = EncodeHandle.internal_write_str h2 s2 := by
    unfold EncodeHandle.write_utf8
    rw [k2]
    simp only [if_true]
  refine ⟨?_, e2, ?_, rfl, rfl, rfl⟩
  · unfold EncodeHandle.write_utf8
    rw [k1]
    simp only [Bool.false_eq_true, if_false]
  · rw [e2]
    exact write_str_plain s2 h2 k5 k3 k4 k6

/-- Witness for C7: `write_utf8("abc")` under `Ascii` fails with the
invalid-text-encoding error though "abc" is pure ASCII; the identical
machinery under `Internationalized` appends the raw UTF-8 bytes of
"é" (code point 233, bytes C3 A9). -/
theorem write_utf8_requires_internationalized_witness :
    ((EncodeHandle.new MailType.Ascii []).mail_type.is_internationalized = false ∧
      (EncodeHandle.new MailType.Internationalized
        []).mail_type.is_internationalized = true ∧
      (∀ c ∈ [233], c ≠ 10 ∧ c ≠ 13) ∧
      (EncodeHandle.new MailType.Internationalized []).buffer.length +
        byteLen [233] ≤ LINE_LEN_HARD_LIMIT) ∧
    (EncodeHandle.write_utf8 (EncodeHandle.new MailType.Ascii []) [97, 98, 99] =
        WResult.err (EncodeHandle.new MailType.Ascii [])
          ⟨.InvalidTextEncoding US_ASCII UTF_8, some MailType.Ascii⟩ ∧
      EncodeHandle.write_utf8 (EncodeHandle.new MailType.Internationalized [])
          [233] =
        EncodeHandle.internal_write_str
          (EncodeHandle.new MailType.Internationalized []) [233] ∧
      EncodeHandle.write_utf8 (EncodeHandle.new MailType.Internationalized [])
          [233] =
        WResult.ok { EncodeHandle.new MailType.Internationalized [] with
          buffer := [] ++ utf8Str [233]
          content_since_fws := false || [233].any notWs } ∧
      MailType.is_internationalized MailType.Ascii = false ∧
      MailType.is_internationalized MailType.Mime8BitEnabled = false ∧
      MailType.is_internationalized MailType.Internationalized = true) :=
  ⟨⟨rfl, rfl, by decide, by decide⟩,
    write_utf8_requires_internationalized
      (EncodeHandle.new MailType.Ascii [])
      (EncodeHandle.new MailType.Internationalized [])
      [97, 98, 99] [233] rfl rfl rfl rfl (by decide) (by decide)⟩

/-- Claim C10 (code bug): the claimed invariant "content_before_fws
implies last_fws_idx < buffer length" is violated by `mark_fws_pos`,
which sets `last_fws_idx` to the buffer LENGTH (one past the end)
while making `content_before_fws` true; if the line is already at the
soft limit, the very next character write enters `break_line_on_fws`
with its guard satisfied and reads `buffer.as_bytes()[last_fws_idx]`
out of bounds — a panic (here: the run evaluates to `none`).
Concretely: write 78 'X', call `mark_fws_pos`, write one more 'X'. -/
theorem break_line_on_fws_panics :
    runWriteOps (EncodeHandle.new MailType.Ascii [])
      [WriteOp.wstr (List.replicate 78 88), WriteOp.markfws, WriteOp.wchar 88] =
      none ∧
    (EncodeHandle.mark_fws_pos
      ⟨List.replicate 78 88, MailType.Ascii, 0, 0, false, true, false, 0⟩).content_before_fws
      = true ∧
    (EncodeHandle.mark_fws_pos
      ⟨List.replicate 78 88, MailType.Ascii, 0, 0, false, true, false, 0⟩).last_fws_idx
      = (List.replicate 78 88).length :=
  ⟨by decide, by decide, by decide⟩

end MailSpec
